import Mathlib

/-!
Verification development for the MISL 100BaseTX managed-switch firmware.

The definitions below are a shallow embedding of the C sources of the firmware:
the EEPROM / Ethernet-controller hardware abstraction layer (eee_hal.c),
the boot-time configuration restore (freertos_init.c, InitializeEEPROM),
the save-configuration handler, the event-logger task and the CLI
dispatcher (interpreter_task.c), the I2C slave interrupt handler
(freertos_init.c, I2C0SlaveIntHandler) together with its code table
(i2c_task.h), and the port monitor task (port_monitor_task.c).

Machine integers are modelled as `Nat` with explicit truncation
(`% 256`, `% 2^24`, `% 2^32`) at the points where the C code truncates.
The two SPI devices are modelled as ideal byte stores (`Nat → Nat`), and
every HAL operation additionally returns the list of semaphore
operations (mutex take/give) it performs on the path taken, so that
lock-discipline properties can be stated.
-/

namespace MISL

/-- Semaphore (FreeRTOS mutex) events performed by a HAL operation.
`SPI0` guards the EEPROM SPI channel (`g_pSPI0Semaphore`), `SPI1` guards
the Ethernet-controller SPI channel (`g_pSPI1Semaphore`). -/
inductive SemEvent where
  | takeSPI0 : SemEvent
  | giveSPI0 : SemEvent
  | takeSPI1 : SemEvent
  | giveSPI1 : SemEvent
deriving DecidableEq, Repr

/-- Number of takes of the EEPROM SPI mutex in a trace. -/
def takes0 : List SemEvent → Nat
  | [] => 0
  | SemEvent.takeSPI0 :: tr => takes0 tr + 1
  | _ :: tr => takes0 tr

/-- Number of gives of the EEPROM SPI mutex in a trace. -/
def gives0 : List SemEvent → Nat
  | [] => 0
  | SemEvent.giveSPI0 :: tr => gives0 tr + 1
  | _ :: tr => gives0 tr

/-- Number of takes of the controller SPI mutex in a trace. -/
def takes1 : List SemEvent → Nat
  | [] => 0
  | SemEvent.takeSPI1 :: tr => takes1 tr + 1
  | _ :: tr => takes1 tr

/-- Number of gives of the controller SPI mutex in a trace. -/
def gives1 : List SemEvent → Nat
  | [] => 0
  | SemEvent.giveSPI1 :: tr => gives1 tr + 1
  | _ :: tr => gives1 tr

lemma takes0_append (a b : List SemEvent) :
    takes0 (a ++ b) = takes0 a + takes0 b := by
  induction a with
  | nil => simp [takes0]
  | cons e tr ih => cases e <;> simp [takes0, ih] <;> omega

lemma gives0_append (a b : List SemEvent) :
    gives0 (a ++ b) = gives0 a + gives0 b := by
  induction a with
  | nil => simp [gives0]
  | cons e tr ih => cases e <;> simp [gives0, ih] <;> omega

lemma takes1_append (a b : List SemEvent) :
    takes1 (a ++ b) = takes1 a + takes1 b := by
  induction a with
  | nil => simp [takes1]
  | cons e tr ih => cases e <;> simp [takes1, ih] <;> omega

lemma gives1_append (a b : List SemEvent) :
    gives1 (a ++ b) = gives1 a + gives1 b := by
  induction a with
  | nil => simp [gives1]
  | cons e tr ih => cases e <;> simp [gives1, ih] <;> omega

lemma takes0_cons_take0 (tr : List SemEvent) :
    takes0 (SemEvent.takeSPI0 :: tr) = takes0 tr + 1 := rfl

lemma gives0_cons_take0 (tr : List SemEvent) :
    gives0 (SemEvent.takeSPI0 :: tr) = gives0 tr := rfl

lemma takes1_cons_take0 (tr : List SemEvent) :
    takes1 (SemEvent.takeSPI0 :: tr) = takes1 tr := rfl

lemma gives1_cons_take0 (tr : List SemEvent) :
    gives1 (SemEvent.takeSPI0 :: tr) = gives1 tr := rfl

/-- A trace is balanced when, on each SPI channel, the mutex is released
exactly as many times as it is acquired. -/
def balanced (tr : List SemEvent) : Prop :=
  takes0 tr = gives0 tr ∧ takes1 tr = gives1 tr

instance (tr : List SemEvent) : Decidable (balanced tr) := by
  unfold balanced; infer_instance

/-- The 25AA1024 serial EEPROM, an ideal store of raw (on-wire) bytes
indexed by byte address. -/
abbrev EEMem := Nat → Nat

/-- Register file of the KSZ8895 Ethernet controller, an ideal store of
bytes indexed by 8-bit register address. -/
abbrev CtrlRegs := Nat → Nat

/-- Complement `~data` on a `uint8_t` operand: bitwise complement truncated back to
8 bits (it equals `255 - b` for a byte `b`). Used by the EEPROM write
path (`data = ~data;`) and the read path (`return (~READ_DATA);`). -/
def invByte (b : Nat) : Nat := 255 - b % 256

/-- The byte address actually presented to the EEPROM: `EEPROMSingleWrite`
and `EEPROMSingleRead` transmit the three low address bytes of the 32-bit
`address` argument high-to-low, so the device sees `address mod 2^24`. -/
def effAddr (address : Nat) : Nat := address % 16777216

/-- Model of `EEPROMSingleWrite` (eee_hal.c): takes the EEPROM SPI mutex, inverts
the data byte (`data = ~data`), issues write-enable and the write opcode
with three address bytes, writes the inverted byte, waits, reads the same
address back and compares the raw readback with the inverted byte; gives
the mutex and returns true on match, false on mismatch.
Result: (new EEPROM contents, boolean result, semaphore trace). -/
def EEPROMSingleWrite (mem : EEMem) (address data : Nat) :
    EEMem × Bool × List SemEvent :=
  let d := invByte data
  let mem' : EEMem := fun a => if a = effAddr address then d else mem a
  let READ_DATA := mem' (effAddr address)
  if d = READ_DATA then
    (mem', true, [SemEvent.takeSPI0, SemEvent.giveSPI0])
  else
    (mem', false, [SemEvent.takeSPI0, SemEvent.giveSPI0])

/-- Model of `EEPROMSingleRead` (eee_hal.c): takes the EEPROM SPI mutex, issues the
read opcode with three address bytes plus a dummy byte, gives the mutex
and returns the complement of the raw byte read (`return (~READ_DATA);`,
truncated to the `uint8_t` return type). -/
def EEPROMSingleRead (mem : EEMem) (address : Nat) : Nat × List SemEvent :=
  (invByte (mem (effAddr address)), [SemEvent.takeSPI0, SemEvent.giveSPI0])

/-- Loop body of `EEPROMBulkWrite` (eee_hal.c): for each data byte, first
re-check the running address bound (`start_address >= 131072`: give the
mutex, log, return false), then perform a single write; on a failed
write the source gives the mutex and then hangs in `while (1)` (modelled
as returning false; with the ideal device this branch is unreachable).
On success the address is incremented and the loop continues. -/
def EEPROMBulkWriteLoop (mem : EEMem) (start_address : Nat) :
    List Nat → EEMem × Bool × List SemEvent
  | [] => (mem, true, [])
  | d :: ds =>
    if start_address ≥ 131072 then
      (mem, false, [SemEvent.giveSPI0])
    else
      let w := EEPROMSingleWrite mem start_address d
      if w.2.1 then
        let rest := EEPROMBulkWriteLoop w.1 (start_address + 1) ds
        (rest.1, rest.2.1, w.2.2 ++ rest.2.2)
      else
        (w.1, false, w.2.2 ++ [SemEvent.giveSPI0])

/-- Model of `EEPROMBulkWrite` (eee_hal.c): takes the EEPROM SPI mutex, then — if
`start_address >= 131072` — logs an IO exception and returns false
WITHOUT giving the mutex (this is the early-return path of the source);
otherwise runs the per-byte loop and finally gives the mutex and returns
true (failure paths inside the loop have already given it). -/
def EEPROMBulkWrite (mem : EEMem) (start_address : Nat) (data : List Nat) :
    EEMem × Bool × List SemEvent :=
  if start_address ≥ 131072 then
    (mem, false, [SemEvent.takeSPI0])
  else
    let l := EEPROMBulkWriteLoop mem start_address data
    if l.2.1 then
      (l.1, true, SemEvent.takeSPI0 :: l.2.2 ++ [SemEvent.giveSPI0])
    else
      (l.1, false, SemEvent.takeSPI0 :: l.2.2)

/-- Loop body of `EEPROMBulkRead` (eee_hal.c): for each position, first
re-check the running address bound (give the mutex, log, return false),
then read one byte into the output array and advance the address. -/
def EEPROMBulkReadLoop (mem : EEMem) (start_address : Nat) :
    Nat → List Nat × Bool × List SemEvent
  | 0 => ([], true, [])
  | n + 1 =>
    if start_address ≥ 131072 then
      ([], false, [SemEvent.giveSPI0])
    else
      let r := EEPROMSingleRead mem start_address
      let rest := EEPROMBulkReadLoop mem (start_address + 1) n
      (r.1 :: rest.1, rest.2.1, r.2 ++ rest.2.2)

/-- Model of `EEPROMBulkRead` (eee_hal.c): takes the EEPROM SPI mutex; if
`start_address >= 131072` it gives the mutex and returns false (unlike
bulk write, this early exit does release the mutex); otherwise reads
`array_length` consecutive bytes and gives the mutex. -/
def EEPROMBulkRead (mem : EEMem) (start_address array_length : Nat) :
    List Nat × Bool × List SemEvent :=
  if start_address ≥ 131072 then
    ([], false, [SemEvent.takeSPI0, SemEvent.giveSPI0])
  else
    let l := EEPROMBulkReadLoop mem start_address array_length
    if l.2.1 then
      (l.1, true, SemEvent.takeSPI0 :: l.2.2 ++ [SemEvent.giveSPI0])
    else
      (l.1, false, SemEvent.takeSPI0 :: l.2.2)

/-- Semaphore trace of `EEPROMChipErase` (eee_hal.c): take the EEPROM SPI
mutex, issue write-enable and the chip-erase opcode, settle, give. The
erase itself alters the whole array; only the lock discipline is modelled
here. -/
def EEPROMChipErase_semTrace : List SemEvent :=
  [SemEvent.takeSPI0, SemEvent.giveSPI0]

/-- Semaphore trace of `EEPROMPageErase` (eee_hal.c): take the EEPROM SPI
mutex, issue write-enable, erase opcode and address, poll the status
register until the WIP bit clears, give. -/
def EEPROMPageErase_semTrace : List SemEvent :=
  [SemEvent.takeSPI0, SemEvent.giveSPI0]

/-- Model of `EthoControllerSingleRead` (eee_hal.c): takes the controller SPI
mutex, issues the read opcode and the 8-bit register address plus a dummy
byte, gives the mutex, and returns the byte read. -/
def EthoControllerSingleRead (ctrl : CtrlRegs) (address : Nat) :
    Nat × List SemEvent :=
  (ctrl address % 256, [SemEvent.takeSPI1, SemEvent.giveSPI1])

/-- Model of `EthoControllerSingleWrite` (eee_hal.c): takes the controller SPI
mutex, issues the write opcode, the 8-bit register address and the data
byte (the SSI frame carries the low 8 bits of the 32-bit `data`
argument), gives the mutex and returns true. -/
def EthoControllerSingleWrite (ctrl : CtrlRegs) (address data : Nat) :
    CtrlRegs × Bool × List SemEvent :=
  ((fun r => if r = address then data % 256 else ctrl r), true,
    [SemEvent.takeSPI1, SemEvent.giveSPI1])

/-- Model of `EthoControllerBulkRead` (eee_hal.c): takes the controller SPI mutex;
if `(start_address + count) > 255` it returns false WITHOUT giving the
mutex (the early-return path of the source); otherwise reads `count`
consecutive registers and gives the mutex. -/
def EthoControllerBulkRead (ctrl : CtrlRegs) (start_address count : Nat) :
    List Nat × Bool × List SemEvent :=
  if start_address + count > 255 then
    ([], false, [SemEvent.takeSPI1])
  else
    ((List.range count).map (fun i => ctrl (start_address + i) % 256), true,
      [SemEvent.takeSPI1, SemEvent.giveSPI1])

/-- The memory produced by a single write: the addressed cell holds the
inverted byte, all other cells are untouched. -/
lemma EEPROMSingleWrite_fst (mem : EEMem) (address data : Nat) :
    (EEPROMSingleWrite mem address data).1 =
      fun a => if a = effAddr address then invByte data else mem a := by
  unfold EEPROMSingleWrite
  simp

/-- The read-back verification of a single write always succeeds against the
ideal device. -/
lemma EEPROMSingleWrite_ok (mem : EEMem) (address data : Nat) :
    (EEPROMSingleWrite mem address data).2.1 = true := by
  unfold EEPROMSingleWrite
  simp

lemma invByte_lt (b : Nat) : invByte b < 256 := by
  unfold invByte; omega

lemma invByte_invByte (b : Nat) (hb : b < 256) : invByte (invByte b) = b := by
  unfold invByte; omega

lemma effAddr_eq_of_lt (a : Nat) (h : a < 131072) : effAddr a = a := by
  unfold effAddr; omega

/-- Memory characterization of the bulk-write loop over an in-range span:
the loop succeeds and the cells of the span hold the inverted data bytes,
all other cells being untouched. -/
lemma EEPROMBulkWriteLoop_spec (data : List Nat) :
    ∀ (mem : EEMem) (start : Nat), start + data.length ≤ 131072 →
      (EEPROMBulkWriteLoop mem start data).2.1 = true ∧
      ∀ a, (EEPROMBulkWriteLoop mem start data).1 a =
        if start ≤ a ∧ a < start + data.length
        then invByte (data.getD (a - start) 0) else mem a := by
  induction data with
  | nil =>
    intro mem start _
    refine ⟨rfl, fun a => ?_⟩
    show mem a = _
    rw [if_neg (by simp only [List.length_nil]; omega)]
  | cons d ds ih =>
    intro mem start h
    have hlt : start < 131072 := by
      simp only [List.length_cons] at h; omega
    have hrec := ih (EEPROMSingleWrite mem start d).1 (start + 1)
      (by simp only [List.length_cons] at h; omega)
    have hstep : EEPROMBulkWriteLoop mem start (d :: ds) =
        ((EEPROMBulkWriteLoop (EEPROMSingleWrite mem start d).1 (start + 1)
            ds).1,
         (EEPROMBulkWriteLoop (EEPROMSingleWrite mem start d).1 (start + 1)
            ds).2.1,
         (EEPROMSingleWrite mem start d).2.2 ++
           (EEPROMBulkWriteLoop (EEPROMSingleWrite mem start d).1 (start + 1)
              ds).2.2) := by
      conv_lhs => rw [EEPROMBulkWriteLoop]
      rw [if_neg (by omega)]
      simp [EEPROMSingleWrite_ok]
    refine ⟨by rw [hstep]; exact hrec.1, fun a => ?_⟩
    rw [hstep]
    show (EEPROMBulkWriteLoop (EEPROMSingleWrite mem start d).1
      (start + 1) ds).1 a = _
    rw [hrec.2 a, EEPROMSingleWrite_fst mem start d,
      effAddr_eq_of_lt start hlt]
    by_cases h1 : start + 1 ≤ a ∧ a < start + 1 + ds.length
    · rw [if_pos h1, if_pos (by simp only [List.length_cons]; omega)]
      have ha : a - start = (a - (start + 1)) + 1 := by omega
      rw [ha, List.getD_cons_succ]
    · rw [if_neg h1]
      show (if a = start then invByte d else mem a) = _
      by_cases h2 : a = start
      · subst h2
        rw [if_pos rfl,
          if_pos ⟨Nat.le_refl a, by simp only [List.length_cons]; omega⟩,
          Nat.sub_self, List.getD_cons_zero]
      · rw [if_neg h2, if_neg (by simp only [List.length_cons]; omega)]

/-- Value characterization of the bulk-read loop over an in-range span:
it succeeds and returns the complements of the raw bytes of the span. -/
lemma EEPROMBulkReadLoop_spec (n : Nat) :
    ∀ (mem : EEMem) (start : Nat), start + n ≤ 131072 →
      (EEPROMBulkReadLoop mem start n).2.1 = true ∧
      (EEPROMBulkReadLoop mem start n).1 =
        (List.range n).map (fun i => invByte (mem (start + i))) := by
  induction n with
  | zero => intro mem start _; exact ⟨rfl, rfl⟩
  | succ n ih =>
    intro mem start h
    have hlt : start < 131072 := by omega
    have hrec := ih mem (start + 1) (by omega)
    have hstep : EEPROMBulkReadLoop mem start (n + 1) =
        ((EEPROMSingleRead mem start).1 ::
            (EEPROMBulkReadLoop mem (start + 1) n).1,
         (EEPROMBulkReadLoop mem (start + 1) n).2.1,
         (EEPROMSingleRead mem start).2 ++
           (EEPROMBulkReadLoop mem (start + 1) n).2.2) := by
      conv_lhs => rw [EEPROMBulkReadLoop]
      rw [if_neg (by omega)]
    refine ⟨by rw [hstep]; exact hrec.1, ?_⟩
    rw [hstep]
    show (EEPROMSingleRead mem start).1 ::
        (EEPROMBulkReadLoop mem (start + 1) n).1 = _
    rw [hrec.2, List.range_succ_eq_map]
    simp [EEPROMSingleRead, effAddr_eq_of_lt start hlt, Nat.add_assoc,
      Nat.add_comm 1]

/-- C1. EEPROM inversion round-trip: a byte written to a valid 17-bit
address is stored inverted on disk (`255 - b`), the write verifies
successfully, and a subsequent single-read of the same address returns
the original byte; a bulk write of a buffer followed by a bulk read of
the same range returns the original buffer. -/
theorem C1_eeprom_inversion_roundtrip :
    (∀ (mem : EEMem) (address b : Nat), address < 131072 → b < 256 →
      (EEPROMSingleWrite mem address b).1 address = 255 - b ∧
      (EEPROMSingleWrite mem address b).2.1 = true ∧
      (EEPROMSingleRead (EEPROMSingleWrite mem address b).1 address).1 = b) ∧
    (∀ (mem : EEMem) (start : Nat) (data : List Nat),
      start < 131072 → start + data.length ≤ 131072 →
      (∀ x ∈ data, x < 256) →
      (EEPROMBulkWrite mem start data).2.1 = true ∧
      (EEPROMBulkRead (EEPROMBulkWrite mem start data).1 start
        data.length).1 = data) := by
  constructor
  · intro mem address b haddr hb
    have hmem := EEPROMSingleWrite_fst mem address b
    have heff := effAddr_eq_of_lt address haddr
    have hcell : (EEPROMSingleWrite mem address b).1 address = invByte b := by
      rw [hmem, heff]; simp
    refine ⟨?_, EEPROMSingleWrite_ok mem address b, ?_⟩
    · rw [hcell]; unfold invByte; omega
    · show invByte ((EEPROMSingleWrite mem address b).1 (effAddr address)) = b
      rw [heff, hcell, invByte_invByte b hb]
  · intro mem start data hlt hrange hbytes
    have hstart : ¬ start ≥ 131072 := by omega
    have hloop := EEPROMBulkWriteLoop_spec data mem start hrange
    have hw : EEPROMBulkWrite mem start data =
        ((EEPROMBulkWriteLoop mem start data).1, true,
          SemEvent.takeSPI0 ::
            (EEPROMBulkWriteLoop mem start data).2.2 ++ [SemEvent.giveSPI0]) := by
      unfold EEPROMBulkWrite
      rw [if_neg hstart]
      simp [hloop.1]
    refine ⟨by rw [hw], ?_⟩
    rw [hw]
    show (EEPROMBulkRead (EEPROMBulkWriteLoop mem start data).1 start
      data.length).1 = data
    have hread := EEPROMBulkReadLoop_spec data.length
      (EEPROMBulkWriteLoop mem start data).1 start hrange
    have hr : EEPROMBulkRead (EEPROMBulkWriteLoop mem start data).1 start
        data.length =
        ((EEPROMBulkReadLoop (EEPROMBulkWriteLoop mem start data).1 start
          data.length).1, true,
          SemEvent.takeSPI0 ::
            (EEPROMBulkReadLoop (EEPROMBulkWriteLoop mem start data).1 start
              data.length).2.2 ++ [SemEvent.giveSPI0]) := by
      unfold EEPROMBulkRead
      rw [if_neg hstart]
      simp [hread.1]
    rw [hr]
    show (EEPROMBulkReadLoop (EEPROMBulkWriteLoop mem start data).1 start
      data.length).1 = data
    rw [hread.2]
    apply List.ext_getElem
    · simp
    · intro i h1 h2
      simp only [List.getElem_map, List.getElem_range]
      rw [hloop.2 (start + i)]
      rw [if_pos (by simp at h1; omega)]
      have : start + i - start = i := by omega
      rw [this]
      have hi : i < data.length := by simpa using h2
      rw [List.getD_eq_getElem data 0 hi]
      exact invByte_invByte _ (hbytes _ (data.getElem_mem hi))

/-- Witness for C1 at concrete inputs: writing 0xAB to address 0x300
stores 0x54 on disk and reads back 0xAB (the example used by the spec), and a
bulk write of [1, 2, 3] at address 16 reads back [1, 2, 3]. -/
theorem C1_eeprom_inversion_roundtrip_witness :
    ((EEPROMSingleWrite (fun _ => 0) 768 171).1 768 = 255 - 171 ∧
     (EEPROMSingleWrite (fun _ => 0) 768 171).2.1 = true ∧
     (EEPROMSingleRead (EEPROMSingleWrite (fun _ => 0) 768 171).1 768).1 =
       171) ∧
    ((EEPROMBulkWrite (fun _ => 0) 16 [1, 2, 3]).2.1 = true ∧
     (EEPROMBulkRead (EEPROMBulkWrite (fun _ => 0) 16 [1, 2, 3]).1 16
       (List.length [1, 2, 3])).1 = [1, 2, 3]) :=
  ⟨C1_eeprom_inversion_roundtrip.1 (fun _ => 0) 768 171 (by decide) (by decide),
   C1_eeprom_inversion_roundtrip.2 (fun _ => 0) 16 [1, 2, 3] (by decide)
     (by decide) (by decide)⟩

lemma EEPROMSingleWrite_trace (mem : EEMem) (address data : Nat) :
    (EEPROMSingleWrite mem address data).2.2 =
      [SemEvent.takeSPI0, SemEvent.giveSPI0] := by
  unfold EEPROMSingleWrite
  simp

lemma EEPROMSingleRead_trace (mem : EEMem) (address : Nat) :
    (EEPROMSingleRead mem address).2 =
      [SemEvent.takeSPI0, SemEvent.giveSPI0] := rfl

/-- Semaphore accounting for the bulk-read loop: it touches only the
EEPROM channel; a successful pass is balanced, the in-loop failure exit
performs one extra give (matching the pending take of the caller). -/
lemma EEPROMBulkReadLoop_trace (n : Nat) : ∀ (mem : EEMem) (start : Nat),
    takes1 (EEPROMBulkReadLoop mem start n).2.2 = 0 ∧
    gives1 (EEPROMBulkReadLoop mem start n).2.2 = 0 ∧
    ((EEPROMBulkReadLoop mem start n).2.1 = true →
      gives0 (EEPROMBulkReadLoop mem start n).2.2 =
        takes0 (EEPROMBulkReadLoop mem start n).2.2) ∧
    ((EEPROMBulkReadLoop mem start n).2.1 = false →
      gives0 (EEPROMBulkReadLoop mem start n).2.2 =
        takes0 (EEPROMBulkReadLoop mem start n).2.2 + 1) := by
  induction n with
  | zero =>
    intro mem start
    refine ⟨rfl, rfl, fun _ => rfl, fun hc => by simp [EEPROMBulkReadLoop] at hc⟩
  | succ n ih =>
    intro mem start
    by_cases hb : start ≥ 131072
    · have hstep : EEPROMBulkReadLoop mem start (n + 1) =
          ([], false, [SemEvent.giveSPI0]) := by
        conv_lhs => rw [EEPROMBulkReadLoop]
        rw [if_pos hb]
      rw [hstep]
      refine ⟨rfl, rfl, fun hc => by simp at hc, fun _ => ?_⟩
      show gives0 [SemEvent.giveSPI0] = takes0 [SemEvent.giveSPI0] + 1
      decide
    · have hstep : EEPROMBulkReadLoop mem start (n + 1) =
          ((EEPROMSingleRead mem start).1 ::
              (EEPROMBulkReadLoop mem (start + 1) n).1,
           (EEPROMBulkReadLoop mem (start + 1) n).2.1,
           (EEPROMSingleRead mem start).2 ++
             (EEPROMBulkReadLoop mem (start + 1) n).2.2) := by
        conv_lhs => rw [EEPROMBulkReadLoop]
        rw [if_neg hb]
      rw [hstep]
      have hr := ih mem (start + 1)
      have e1 : takes0 [SemEvent.takeSPI0, SemEvent.giveSPI0] = 1 := by decide
      have e2 : gives0 [SemEvent.takeSPI0, SemEvent.giveSPI0] = 1 := by decide
      have e3 : takes1 [SemEvent.takeSPI0, SemEvent.giveSPI0] = 0 := by decide
      have e4 : gives1 [SemEvent.takeSPI0, SemEvent.giveSPI0] = 0 := by decide
      refine ⟨?_, ?_, ?_, ?_⟩
      · have h1 := hr.1
        simp only [EEPROMSingleRead_trace, takes1_append]
        omega
      · have h1 := hr.2.1
        simp only [EEPROMSingleRead_trace, gives1_append]
        omega
      · intro hok
        have h1 := hr.2.2.1 hok
        simp only [EEPROMSingleRead_trace, takes0_append, gives0_append]
        omega
      · intro hfail
        have h1 := hr.2.2.2 hfail
        simp only [EEPROMSingleRead_trace, takes0_append, gives0_append]
        omega

/-- Semaphore accounting for the bulk-write loop: it touches only the
EEPROM channel; a successful pass is balanced, the failure exits perform
one extra give. -/
lemma EEPROMBulkWriteLoop_trace (data : List Nat) :
    ∀ (mem : EEMem) (start : Nat),
    takes1 (EEPROMBulkWriteLoop mem start data).2.2 = 0 ∧
    gives1 (EEPROMBulkWriteLoop mem start data).2.2 = 0 ∧
    ((EEPROMBulkWriteLoop mem start data).2.1 = true →
      gives0 (EEPROMBulkWriteLoop mem start data).2.2 =
        takes0 (EEPROMBulkWriteLoop mem start data).2.2) ∧
    ((EEPROMBulkWriteLoop mem start data).2.1 = false →
      gives0 (EEPROMBulkWriteLoop mem start data).2.2 =
        takes0 (EEPROMBulkWriteLoop mem start data).2.2 + 1) := by
  induction data with
  | nil =>
    intro mem start
    refine ⟨rfl, rfl, fun _ => rfl, fun hc => by simp [EEPROMBulkWriteLoop] at hc⟩
  | cons d ds ih =>
    intro mem start
    by_cases hb : start ≥ 131072
    · have hstep : EEPROMBulkWriteLoop mem start (d :: ds) =
          (mem, false, [SemEvent.giveSPI0]) := by
        conv_lhs => rw [EEPROMBulkWriteLoop]
        rw [if_pos hb]
      rw [hstep]
      refine ⟨rfl, rfl, fun hc => by simp at hc, fun _ => ?_⟩
      show gives0 [SemEvent.giveSPI0] = takes0 [SemEvent.giveSPI0] + 1
      decide
    · have hstep : EEPROMBulkWriteLoop mem start (d :: ds) =
          ((EEPROMBulkWriteLoop (EEPROMSingleWrite mem start d).1 (start + 1)
              ds).1,
           (EEPROMBulkWriteLoop (EEPROMSingleWrite mem start d).1 (start + 1)
              ds).2.1,
           (EEPROMSingleWrite mem start d).2.2 ++
             (EEPROMBulkWriteLoop (EEPROMSingleWrite mem start d).1 (start + 1)
                ds).2.2) := by
        conv_lhs => rw [EEPROMBulkWriteLoop]
        rw [if_neg hb]
        simp [EEPROMSingleWrite_ok]
      rw [hstep]
      have hr := ih (EEPROMSingleWrite mem start d).1 (start + 1)
      have e1 : takes0 [SemEvent.takeSPI0, SemEvent.giveSPI0] = 1 := by decide
      have e2 : gives0 [SemEvent.takeSPI0, SemEvent.giveSPI0] = 1 := by decide
      have e3 : takes1 [SemEvent.takeSPI0, SemEvent.giveSPI0] = 0 := by decide
      have e4 : gives1 [SemEvent.takeSPI0, SemEvent.giveSPI0] = 0 := by decide
      refine ⟨?_, ?_, ?_, ?_⟩
      · have h1 := hr.1
        simp only [EEPROMSingleWrite_trace, takes1_append]
        omega
      · have h1 := hr.2.1
        simp only [EEPROMSingleWrite_trace, gives1_append]
        omega
      · intro hok
        have h1 := hr.2.2.1 hok
        simp only [EEPROMSingleWrite_trace, takes0_append, gives0_append]
        omega
      · intro hfail
        have h1 := hr.2.2.2 hfail
        simp only [EEPROMSingleWrite_trace, takes0_append, gives0_append]
        omega

/-- C5 counterexample: two HAL failure paths return while still holding
their SPI mutex. `EEPROMBulkWrite` called with `start_address = 131072`
(one past the last valid address) takes the EEPROM mutex, hits the
out-of-range rejection, and returns false without giving it; likewise
`EthoControllerBulkRead` with `start_address + count > 255` returns false
holding the controller mutex. -/
theorem C5_counterexample :
    ¬ balanced (EEPROMBulkWrite (fun _ => 0) 131072 [0]).2.2 ∧
    ¬ balanced (EthoControllerBulkRead (fun _ => 0) 200 100).2.2 := by
  decide

/-- C5 (amended). Every HAL operation releases the SPI mutex it acquired
on every exit path, with exactly two exceptions: the initial out-of-range rejection of
`EEPROMBulkWrite` (`start_address ≥ 131072`) and the out-of-range
rejection of `EthoControllerBulkRead`
(`start_address + count > 255`) return failure while still holding the
mutex. Equivalently: single reads/writes and erases are always balanced,
`EEPROMBulkRead` is always balanced, and the two bulk operations above
are balanced exactly when their start-of-call range check passes. -/
theorem C5_mutex_release_amended :
    (∀ (mem : EEMem) (a d : Nat), balanced (EEPROMSingleWrite mem a d).2.2) ∧
    (∀ (mem : EEMem) (a : Nat), balanced (EEPROMSingleRead mem a).2) ∧
    balanced EEPROMChipErase_semTrace ∧
    balanced EEPROMPageErase_semTrace ∧
    (∀ (ctrl : CtrlRegs) (a : Nat),
      balanced (EthoControllerSingleRead ctrl a).2) ∧
    (∀ (ctrl : CtrlRegs) (a d : Nat),
      balanced (EthoControllerSingleWrite ctrl a d).2.2) ∧
    (∀ (mem : EEMem) (start n : Nat),
      balanced (EEPROMBulkRead mem start n).2.2) ∧
    (∀ (mem : EEMem) (start : Nat) (data : List Nat),
      balanced (EEPROMBulkWrite mem start data).2.2 ↔ start < 131072) ∧
    (∀ (ctrl : CtrlRegs) (start count : Nat),
      balanced (EthoControllerBulkRead ctrl start count).2.2 ↔
        start + count ≤ 255) := by
  refine ⟨?_, ?_, by decide, by decide, ?_, ?_, ?_, ?_, ?_⟩
  · intro mem a d
    rw [EEPROMSingleWrite_trace]
    decide
  · intro mem a
    show balanced [SemEvent.takeSPI0, SemEvent.giveSPI0]
    decide
  · intro ctrl a
    show balanced [SemEvent.takeSPI1, SemEvent.giveSPI1]
    decide
  · intro ctrl a d
    show balanced [SemEvent.takeSPI1, SemEvent.giveSPI1]
    decide
  · intro mem start n
    unfold EEPROMBulkRead
    by_cases hb : start ≥ 131072
    · rw [if_pos hb]
      show balanced [SemEvent.takeSPI0, SemEvent.giveSPI0]
      decide
    · rw [if_neg hb]
      have h := EEPROMBulkReadLoop_trace n mem start
      have h2 := h.1
      have h3 := h.2.1
      have e1 : takes0 [SemEvent.giveSPI0] = 0 := by decide
      have e2 : gives0 [SemEvent.giveSPI0] = 1 := by decide
      have e3 : takes1 [SemEvent.giveSPI0] = 0 := by decide
      have e4 : gives1 [SemEvent.giveSPI0] = 0 := by decide
      rcases hok : (EEPROMBulkReadLoop mem start n).2.1 with _ | _
      · rw [if_neg (by simp [hok])]
        have h1 := h.2.2.2 hok
        unfold balanced
        simp only [takes0_cons_take0, gives0_cons_take0, takes1_cons_take0,
          gives1_cons_take0]
        omega
      · rw [if_pos (by simp [hok])]
        have h1 := h.2.2.1 hok
        unfold balanced
        simp only [takes0_cons_take0, gives0_cons_take0, takes1_cons_take0,
          gives1_cons_take0, takes0_append, gives0_append, takes1_append,
          gives1_append]
        omega
  · intro mem start data
    unfold EEPROMBulkWrite
    by_cases hb : start ≥ 131072
    · rw [if_pos hb]
      constructor
      · intro hbal
        have hne : ¬ takes0 [SemEvent.takeSPI0] = gives0 [SemEvent.takeSPI0] :=
          by decide
        exact absurd hbal.1 hne
      · intro h
        omega
    · rw [if_neg hb]
      have h := EEPROMBulkWriteLoop_trace data mem start
      have h2 := h.1
      have h3 := h.2.1
      have e1 : takes0 [SemEvent.giveSPI0] = 0 := by decide
      have e2 : gives0 [SemEvent.giveSPI0] = 1 := by decide
      have e3 : takes1 [SemEvent.giveSPI0] = 0 := by decide
      have e4 : gives1 [SemEvent.giveSPI0] = 0 := by decide
      constructor
      · intro _
        omega
      · intro _
        rcases hok : (EEPROMBulkWriteLoop mem start data).2.1 with _ | _
        · rw [if_neg (by simp [hok])]
          have h1 := h.2.2.2 hok
          unfold balanced
          simp only [takes0_cons_take0, gives0_cons_take0, takes1_cons_take0,
            gives1_cons_take0]
          omega
        · rw [if_pos (by simp [hok])]
          have h1 := h.2.2.1 hok
          unfold balanced
          simp only [takes0_cons_take0, gives0_cons_take0, takes1_cons_take0,
            gives1_cons_take0, takes0_append, gives0_append, takes1_append,
            gives1_append]
          omega
  · intro ctrl start count
    unfold EthoControllerBulkRead
    by_cases hb : start + count > 255
    · rw [if_pos hb]
      constructor
      · intro hbal
        have hne : ¬ takes1 [SemEvent.takeSPI1] = gives1 [SemEvent.takeSPI1] :=
          by decide
        exact absurd hbal.2 hne
      · intro h
        omega
    · rw [if_neg hb]
      constructor
      · intro _
        omega
      · intro _
        show balanced [SemEvent.takeSPI1, SemEvent.giveSPI1]
        decide

/-- Witness for the amended C5 at concrete inputs, exercising both
bulk-operation equivalences in their passing direction. -/
theorem C5_mutex_release_amended_witness :
    balanced (EEPROMBulkWrite (fun _ => 0) 16 [1, 2]).2.2 ∧
    balanced (EthoControllerBulkRead (fun _ => 0) 10 5).2.2 :=
  ⟨(C5_mutex_release_amended.2.2.2.2.2.2.2.1 (fun _ => 0) 16 [1, 2]).2
      (by decide),
   (C5_mutex_release_amended.2.2.2.2.2.2.2.2 (fun _ => 0) 10 5).2
      (by decide)⟩

/-- The controller-register restore branch of `InitializeEEPROM`
(freertos_init.c), executed when bit 6 of the system-flags byte is set:
`for (reg = 0; reg < 0xFF; reg++)` write to controller register `reg` the
value single-read from EEPROM address `EEPROM_SWITCH_CONFIG_BASE + reg`
(base 0x100). Note the loop bound `reg < 0xFF`. -/
def InitializeEEPROM_loadConfig (ee : EEMem) (ctrl : CtrlRegs) : CtrlRegs :=
  (List.range 0xFF).foldl
    (fun c reg =>
      (EthoControllerSingleWrite c reg (EEPROMSingleRead ee (0x100 + reg)).1).1)
    ctrl

/-- The controller-register save loop of `COM_SaveSwitchConfiguration`
(interpreter_task.c): `for (read_addr = 0; read_addr < 0xFF; read_addr++)`
read controller register `read_addr` and single-write it to EEPROM at
`eeprom_eth0_addr` (starting at 0x100 and incremented in step, i.e.
`0x100 + read_addr`). With the ideal device the write-verify never fails,
so the early `return false` path is not taken. -/
def COM_SaveSwitchConfiguration_regs (ctrl : CtrlRegs) (ee : EEMem) : EEMem :=
  (List.range 0xFF).foldl
    (fun m read_addr =>
      (EEPROMSingleWrite m (0x100 + read_addr)
        (EthoControllerSingleRead ctrl read_addr).1).1)
    ee

lemma EEPROMSingleRead_lt (mem : EEMem) (address : Nat) :
    (EEPROMSingleRead mem address).1 < 256 := invByte_lt _

/-- Pointwise characterization of the restore loop: registers 0x00–0xFE
receive the EEPROM image, every other register (0xFF included) is left
unchanged. -/
lemma InitializeEEPROM_loadConfig_spec (ee : EEMem) (ctrl : CtrlRegs)
    (a : Nat) :
    InitializeEEPROM_loadConfig ee ctrl a =
      if a < 0xFF then (EEPROMSingleRead ee (0x100 + a)).1 else ctrl a := by
  have hgen : ∀ (n : Nat) (c : CtrlRegs) (a : Nat),
      ((List.range n).foldl
        (fun c reg =>
          (EthoControllerSingleWrite c reg
            (EEPROMSingleRead ee (0x100 + reg)).1).1) c) a =
      if a < n then (EEPROMSingleRead ee (0x100 + a)).1 else c a := by
    intro n
    induction n with
    | zero => intro c a; simp
    | succ n ih =>
      intro c a
      rw [List.range_succ, List.foldl_append, List.foldl_cons, List.foldl_nil]
      show (if a = n
        then (EEPROMSingleRead ee (0x100 + n)).1 % 256
        else ((List.range n).foldl
          (fun c reg =>
            (EthoControllerSingleWrite c reg
              (EEPROMSingleRead ee (0x100 + reg)).1).1) c) a) = _
      by_cases h : a = n
      · subst h
        rw [if_pos rfl, if_pos (Nat.lt_succ_self a),
          Nat.mod_eq_of_lt (EEPROMSingleRead_lt ee (0x100 + a))]
      · rw [if_neg h, ih c a]
        by_cases h2 : a < n
        · rw [if_pos h2, if_pos (by omega)]
        · rw [if_neg h2, if_neg (by omega)]
  exact hgen 0xFF ctrl a

/-- Pointwise characterization of the save loop: EEPROM 0x100–0x1FE
receives the (inverted, as always on disk) controller registers
0x00–0xFE; every other EEPROM byte — address 0x1FF included — is left
unchanged. -/
lemma COM_SaveSwitchConfiguration_regs_spec (ctrl : CtrlRegs) (ee : EEMem)
    (addr : Nat) :
    COM_SaveSwitchConfiguration_regs ctrl ee addr =
      if 0x100 ≤ addr ∧ addr < 0x1FF
      then invByte (EthoControllerSingleRead ctrl (addr - 0x100)).1
      else ee addr := by
  have hgen : ∀ (n : Nat) (m : EEMem) (addr : Nat), n ≤ 0xFF →
      ((List.range n).foldl
        (fun m read_addr =>
          (EEPROMSingleWrite m (0x100 + read_addr)
            (EthoControllerSingleRead ctrl read_addr).1).1) m) addr =
      if 0x100 ≤ addr ∧ addr < 0x100 + n
      then invByte (EthoControllerSingleRead ctrl (addr - 0x100)).1
      else m addr := by
    intro n
    induction n with
    | zero =>
      intro m addr _
      show m addr = _
      rw [if_neg (by omega)]
    | succ n ih =>
      intro m addr hn
      rw [List.range_succ, List.foldl_append, List.foldl_cons, List.foldl_nil,
        EEPROMSingleWrite_fst, effAddr_eq_of_lt (0x100 + n) (by omega)]
      show (if addr = 0x100 + n
        then invByte (EthoControllerSingleRead ctrl n).1
        else ((List.range n).foldl
          (fun m read_addr =>
            (EEPROMSingleWrite m (0x100 + read_addr)
              (EthoControllerSingleRead ctrl read_addr).1).1) m) addr) = _
      by_cases h : addr = 0x100 + n
      · rw [if_pos h, if_pos (by omega)]
        have : addr - 0x100 = n := by omega
        rw [this]
      · rw [if_neg h, ih m addr (by omega)]
        by_cases h2 : 0x100 ≤ addr ∧ addr < 0x100 + n
        · rw [if_pos h2, if_pos (by omega)]
        · rw [if_neg h2, if_neg (by omega)]
  exact hgen 0xFF ee addr (Nat.le_refl _)

/-- C2 counterexample: the persistence loops do NOT cover the full
register range [0x00, 0xFF]. With the EEPROM holding raw 0 everywhere
(so every single-read returns 255) and the controller registers all 0,
the restore branch leaves controller register 0xFF at 0 although the
single-read of EEPROM 0x1FF returns 255; symmetrically, the save loop
leaves EEPROM address 0x1FF untouched (here 7) although a full-range
save would store the inverted register 0xFF there. -/
theorem C2_counterexample :
    InitializeEEPROM_loadConfig (fun _ => 0) (fun _ => 0) 0xFF = 0 ∧
    (EEPROMSingleRead (fun _ => 0) (0x100 + 0xFF)).1 = 255 ∧
    COM_SaveSwitchConfiguration_regs (fun _ => 0) (fun _ => 7) 0x1FF = 7 ∧
    invByte (EthoControllerSingleRead (fun _ => 0) 0xFF).1 = 255 := by
  refine ⟨?_, by decide, ?_, by decide⟩
  · rw [InitializeEEPROM_loadConfig_spec]
    norm_num
  · rw [COM_SaveSwitchConfiguration_regs_spec]
    norm_num

/-- C2 (amended). Configuration persistence covers the controller
register range [0x00, 0xFE] only (255 registers, not 256): the boot
restore branch (flag bit 6) performs ctrl-write(reg, single-read(0x100 +
reg)) exactly for reg < 0xFF and leaves register 0xFF unchanged, and the
save loop writes controller registers 0x00–0xFE to EEPROM 0x100–0x1FE,
leaving EEPROM address 0x1FF unchanged. -/
theorem C2_persistence_range_amended :
    (∀ (ee : EEMem) (ctrl : CtrlRegs) (reg : Nat), reg < 0xFF →
      InitializeEEPROM_loadConfig ee ctrl reg =
        (EEPROMSingleRead ee (0x100 + reg)).1) ∧
    (∀ (ee : EEMem) (ctrl : CtrlRegs),
      InitializeEEPROM_loadConfig ee ctrl 0xFF = ctrl 0xFF) ∧
    (∀ (ctrl : CtrlRegs) (ee : EEMem) (addr : Nat),
      0x100 ≤ addr → addr < 0x1FF →
      COM_SaveSwitchConfiguration_regs ctrl ee addr =
        invByte (EthoControllerSingleRead ctrl (addr - 0x100)).1) ∧
    (∀ (ctrl : CtrlRegs) (ee : EEMem),
      COM_SaveSwitchConfiguration_regs ctrl ee 0x1FF = ee 0x1FF) := by
  refine ⟨?_, ?_, ?_, ?_⟩
  · intro ee ctrl reg h
    rw [InitializeEEPROM_loadConfig_spec, if_pos h]
  · intro ee ctrl
    rw [InitializeEEPROM_loadConfig_spec, if_neg (by omega)]
  · intro ctrl ee addr h1 h2
    rw [COM_SaveSwitchConfiguration_regs_spec, if_pos ⟨h1, h2⟩]
  · intro ctrl ee
    rw [COM_SaveSwitchConfiguration_regs_spec, if_neg (by omega)]

/-- Witness for the amended C2 at concrete inputs: register 7 is restored
from EEPROM 0x107, and the save loop writes EEPROM 0x107 from register
7. -/
theorem C2_persistence_range_amended_witness :
    InitializeEEPROM_loadConfig (fun _ => 0) (fun _ => 0) 7 =
      (EEPROMSingleRead (fun _ => 0) (0x100 + 7)).1 ∧
    COM_SaveSwitchConfiguration_regs (fun _ => 0) (fun _ => 0) 0x107 =
      invByte (EthoControllerSingleRead (fun _ => 0) (0x107 - 0x100)).1 :=
  ⟨C2_persistence_range_amended.1 (fun _ => 0) (fun _ => 0) 7 (by decide),
   C2_persistence_range_amended.2.2.1 (fun _ => 0) (fun _ => 0) 0x107
     (by decide) (by decide)⟩

/-- Constant `EEPROM_LOG_BASE` (freertos_init.h): base byte address of the event
log region. -/
def EEPROM_LOG_BASE : Nat := 0x1600

/-- Constant `MAX_LOG_ENTRIES` (led_manager.h): the documented maximum number of
five-byte log entries (the header comment speaks of
"entries * 5 sectors/entry"). -/
def MAX_LOG_ENTRIES : Nat := 400

/-- The slot advance performed by `LoggerTask` (interpreter_task.c) after
writing one five-byte record at `NextLogSlot`:
`if ((NextLogSlot + 5) > EEPROM_LOG_BASE + MAX_LOG_ENTRIES)` wrap to
`EEPROM_LOG_BASE`, `else NextLogSlot += 5`. Note the comparison adds
`MAX_LOG_ENTRIES` as a BYTE offset (no `* 5`). -/
def LoggerTask_advanceSlot (NextLogSlot : Nat) : Nat :=
  if NextLogSlot + 5 > EEPROM_LOG_BASE + MAX_LOG_ENTRIES then EEPROM_LOG_BASE
  else NextLogSlot + 5

/-- Value of `NextLogSlot` after `n` enabled, non-duplicate records have
been written, starting from the boot value `EEPROM_LOG_BASE`; the
(n+1)-st record is written at `NextLogSlot_after n`. -/
def NextLogSlot_after : Nat → Nat
  | 0 => EEPROM_LOG_BASE
  | n + 1 => LoggerTask_advanceSlot (NextLogSlot_after n)

set_option maxRecDepth 8192 in
/-- C3. Evaluation of the logger slot arithmetic at the failing input:
the first 81 records occupy distinct slots `EEPROM_LOG_BASE + 5k`
(k = 0..80, i.e. the 81st record lands at byte offset 400), the slot
wraps back to `EEPROM_LOG_BASE` after the 81st record — not after the
401st as the claim (and the name `MAX_LOG_ENTRIES`, and `COM_ListEvents`
which reads `MAX_LOG_ENTRIES * 5` bytes) requires — and after 401
records the slot is not at the region base. -/
theorem C3_log_wrap_on_81st :
    (List.range 81).map NextLogSlot_after =
      (List.range 81).map (fun k => EEPROM_LOG_BASE + 5 * k) ∧
    NextLogSlot_after 80 = EEPROM_LOG_BASE + MAX_LOG_ENTRIES ∧
    NextLogSlot_after 81 = EEPROM_LOG_BASE ∧
    NextLogSlot_after 401 ≠ EEPROM_LOG_BASE := by
  decide

/-- Constant `I2CBUFFERSIZE` (i2c_task.h). -/
def I2CBUFFERSIZE : Nat := 50

/-- One row of the `I2C_Mappings` table (i2c_task.h). The
`static_parameters` array and the handler function pointer are not used
by the slave interrupt handler and are omitted here. -/
structure I2C_Codes where
  command_code : Nat
  static_pcount : Nat
  custom_pcount : Nat
  return_pcount : Nat
deriving DecidableEq, Repr

set_option maxHeartbeats 2000000 in
/-- The 80-row `I2C_Mappings` table (i2c_task.h), in source order:
(command_code, static_pcount, custom_pcount, return_pcount). -/
def I2C_Mappings : List I2C_Codes := [
  ⟨0x00, 0, 3, 1⟩, ⟨0x01, 0, 0, 1⟩, ⟨0x02, 0, 0, 0xFF⟩, ⟨0x03, 0, 0, 1⟩,
  ⟨0x04, 0, 0, 0⟩, ⟨0x05, 0, 0, 0⟩, ⟨0x06, 0, 0, 0⟩, ⟨0x07, 0, 0, 0⟩,
  ⟨0x08, 0, 0, 0⟩, ⟨0x09, 0, 0, 0⟩, ⟨0x0A, 0, 0, 0⟩, ⟨0x0B, 0, 0, 0⟩,
  ⟨0x0C, 0, 0, 0⟩, ⟨0x0D, 0, 0, 0⟩, ⟨0x0E, 0, 0, 0⟩, ⟨0x0F, 0, 0, 0⟩,
  ⟨0x10, 3, 0, 1⟩, ⟨0x11, 3, 0, 1⟩, ⟨0x12, 3, 0, 1⟩, ⟨0x13, 3, 0, 1⟩,
  ⟨0x14, 3, 0, 1⟩, ⟨0x15, 3, 0, 1⟩, ⟨0x16, 3, 0, 1⟩, ⟨0x17, 3, 0, 1⟩,
  ⟨0x18, 3, 0, 1⟩, ⟨0x19, 3, 0, 1⟩, ⟨0x1A, 3, 0, 1⟩, ⟨0x1B, 3, 0, 1⟩,
  ⟨0x1C, 3, 0, 1⟩, ⟨0x1D, 0, 0, 2⟩, ⟨0x1E, 0, 0, 1⟩, ⟨0x1F, 0, 0, 1⟩,
  ⟨0x20, 3, 0, 1⟩, ⟨0x21, 3, 0, 1⟩, ⟨0x22, 3, 0, 1⟩, ⟨0x23, 3, 0, 1⟩,
  ⟨0x24, 3, 0, 1⟩, ⟨0x25, 3, 0, 1⟩, ⟨0x26, 3, 0, 1⟩, ⟨0x27, 3, 0, 1⟩,
  ⟨0x28, 3, 0, 1⟩, ⟨0x29, 3, 0, 1⟩, ⟨0x2A, 3, 0, 1⟩, ⟨0x2B, 3, 0, 1⟩,
  ⟨0x2C, 3, 0, 1⟩, ⟨0x2D, 0, 0, 2⟩, ⟨0x2E, 0, 0, 1⟩, ⟨0x2F, 0, 0, 1⟩,
  ⟨0x30, 3, 0, 1⟩, ⟨0x31, 3, 0, 1⟩, ⟨0x32, 3, 0, 1⟩, ⟨0x33, 3, 0, 1⟩,
  ⟨0x34, 3, 0, 1⟩, ⟨0x35, 3, 0, 1⟩, ⟨0x36, 3, 0, 1⟩, ⟨0x37, 3, 0, 1⟩,
  ⟨0x38, 3, 0, 1⟩, ⟨0x39, 3, 0, 1⟩, ⟨0x3A, 3, 0, 1⟩, ⟨0x3B, 3, 0, 1⟩,
  ⟨0x3C, 3, 0, 1⟩, ⟨0x3D, 0, 0, 2⟩, ⟨0x3E, 0, 0, 1⟩, ⟨0x3F, 0, 0, 1⟩,
  ⟨0x40, 3, 0, 1⟩, ⟨0x41, 3, 0, 1⟩, ⟨0x42, 3, 0, 1⟩, ⟨0x43, 3, 0, 1⟩,
  ⟨0x44, 3, 0, 1⟩, ⟨0x45, 3, 0, 1⟩, ⟨0x46, 3, 0, 1⟩, ⟨0x47, 3, 0, 1⟩,
  ⟨0x48, 3, 0, 1⟩, ⟨0x49, 3, 0, 1⟩, ⟨0x4A, 3, 0, 1⟩, ⟨0x4B, 3, 0, 1⟩,
  ⟨0x4C, 3, 0, 1⟩, ⟨0x4D, 0, 0, 2⟩, ⟨0x4E, 0, 0, 1⟩, ⟨0x4F, 0, 0, 1⟩]

/-- The `I2C_Packet` queue item (i2c_task.h): a 50-byte buffer and the
running index. -/
structure I2C_Packet where
  I2CRXBuffer : List Nat
  I2CRXIndex : Nat
deriving DecidableEq, Repr

/-- In-place update of a list cell (out-of-range index: no effect). -/
def listSet : List Nat → Nat → Nat → List Nat
  | [], _, _ => []
  | _ :: xs, 0, v => v :: xs
  | x :: xs, n + 1, v => x :: listSet xs n v

/-- The three slave-interrupt causes distinguished by
`I2C0SlaveIntHandler` (START, DATA with a received byte, STOP). -/
inductive I2CSlaveInt where
  | start : I2CSlaveInt
  | data : Nat → I2CSlaveInt
  | stop : I2CSlaveInt
deriving DecidableEq, Repr

/-- Model of `I2C0SlaveIntHandler` (freertos_init.c), one invocation. The handler
declares `static I2C_Packet data;` but then executes
`memset(&data, 0, sizeof(I2C_Packet));` at the top of EVERY invocation,
so the incoming state is zeroed before the interrupt cause is examined.
On START the index is reset; on DATA the received byte is stored at the
current index, the index is wrapped to 0 if it exceeds `I2CBUFFERSIZE`,
the packet is enqueued if the index has reached the `custom_pcount` of
the code table row selected by buffer[0] (an out-of-table code indexes
past the 80-entry array in C; modelled by a zero default row), and then
the index is incremented; on STOP nothing happens. Returns the state
left in the static variable and the packet enqueued, if any. -/
def I2C0SlaveIntHandler (st : I2C_Packet) (ev : I2CSlaveInt) :
    I2C_Packet × Option I2C_Packet :=
  let st : I2C_Packet := ⟨List.replicate 50 0, 0⟩
  match ev with
  | I2CSlaveInt.start => ({ st with I2CRXIndex := 0 }, none)
  | I2CSlaveInt.data b =>
    let buf := listSet st.I2CRXBuffer st.I2CRXIndex (b % 256)
    let idx := if st.I2CRXIndex > I2CBUFFERSIZE then 0 else st.I2CRXIndex
    let enq :=
      if idx ≥ (List.getD I2C_Mappings (buf.getD 0 0) ⟨0, 0, 0, 0⟩).custom_pcount
      then some (⟨buf, idx⟩ : I2C_Packet) else none
    (⟨buf, idx + 1⟩, enq)
  | I2CSlaveInt.stop => (st, none)

/-- Runs the slave ISR over a sequence of interrupts, collecting the
packets placed on the I2C work queue. -/
def I2C_runISR : I2C_Packet → List I2CSlaveInt → List I2C_Packet
  | _, [] => []
  | st, ev :: evs =>
    let r := I2C0SlaveIntHandler st ev
    match r.2 with
    | some p => p :: I2C_runISR r.1 evs
    | none => I2C_runISR r.1 evs

set_option maxRecDepth 8192 in
set_option maxHeartbeats 1000000 in
/-- C4. Evaluation of the slave ISR at the failing input: the transaction
START, 0x00, 0x12, 0x34, 0x56, STOP (code 0x00 declares
custom_pcount = 3). Because the handler zeroes its static buffer and
index on every invocation, the code byte 0x00 is never accumulated with
its three parameters: instead each parameter byte is treated as a fresh
code at index 0 and enqueued as its own packet, so three packets with
first bytes 0x12, 0x34, 0x56 (and index 0) are enqueued and no enqueued
packet carries command code 0x00. -/
theorem C4_isr_zeroed_buffer :
    (List.getD I2C_Mappings 0x00 ⟨0, 0, 0, 0⟩).custom_pcount = 3 ∧
    (I2C_runISR ⟨List.replicate 50 0, 0⟩
      [I2CSlaveInt.start, I2CSlaveInt.data 0x00, I2CSlaveInt.data 0x12,
       I2CSlaveInt.data 0x34, I2CSlaveInt.data 0x56,
       I2CSlaveInt.stop]).map (fun p => p.I2CRXBuffer.getD 0 0) =
      [0x12, 0x34, 0x56] ∧
    (∀ p ∈ I2C_runISR ⟨List.replicate 50 0, 0⟩
      [I2CSlaveInt.start, I2CSlaveInt.data 0x00, I2CSlaveInt.data 0x12,
       I2CSlaveInt.data 0x34, I2CSlaveInt.data 0x56, I2CSlaveInt.stop],
      p.I2CRXBuffer.getD 0 0 ≠ 0x00 ∧ p.I2CRXIndex = 0) := by
  decide

/-- Outcome of the terminal-command branch of `InterpreterTask`
(interpreter_task.c). -/
inductive CLIDispatchResult where
  | tooManyParams : CLIDispatchResult
  | unauthorized : CLIDispatchResult
  | executed : Bool → CLIDispatchResult
deriving DecidableEq, Repr

/-- The terminal-node dispatch of `InterpreterTask` (interpreter_task.c,
inside the token walk, `if ((*Menu)[j].isExecutable)`):
`if (commandwords[i+1] != 0x00)` report too many parameters;
`else if ((*Menu)[j].permissionsRequired > ActiveUser.permissions)`
report unauthorized; `else` invoke the handler and report its boolean
result. `nextTokenPresent` is `commandwords[i+1] != 0x00`, the
permissions are the numeric role values, `funcResult` is the boolean
returned by the handler. -/
def InterpreterTask_terminalDispatch (nextTokenPresent : Bool)
    (permissionsRequired userPermissions : Nat) (funcResult : Bool) :
    CLIDispatchResult :=
  if nextTokenPresent then CLIDispatchResult.tooManyParams
  else if permissionsRequired > userPermissions then
    CLIDispatchResult.unauthorized
  else CLIDispatchResult.executed funcResult

/-- C6. CLI terminal dispatch: the dispatcher reports "too many
parameters" exactly when tokens remain beyond the depth of the terminal
node;
otherwise it reports unauthorized exactly when the role of the active
user is numerically less than the required permission of the node; otherwise — and
only then — it invokes the handler. Hence a user with role R reaches the
handler of a command exactly when required_permission ≤ R. -/
theorem C6_terminal_dispatch_permissions :
    ∀ (next : Bool) (req perm : Nat) (r : Bool),
      (InterpreterTask_terminalDispatch next req perm r =
          CLIDispatchResult.executed r ↔ next = false ∧ req ≤ perm) ∧
      (InterpreterTask_terminalDispatch next req perm r =
          CLIDispatchResult.unauthorized ↔ next = false ∧ perm < req) ∧
      (InterpreterTask_terminalDispatch next req perm r =
          CLIDispatchResult.tooManyParams ↔ next = true) := by
  intro next req perm r
  cases next <;> by_cases h : req > perm <;>
    simp [InterpreterTask_terminalDispatch, h] <;> omega

/-- One authenticated pass of `PortMonitorTask` (port_monitor_task.c)
over the interrupt-status value `flags0` read at the start of the pass.
In each taken branch the source OVERWRITES the local variable (`flags =
0x10;`, `flags = 0x08;`, ...) with the single handled bit before writing
it back to clear that interrupt, and the later `if (flags & ...)` tests
run on the overwritten value. Each executed branch performs the fixed
sequence (clear the bit, read the per-port status-1 register and report
link state, disable learning, set the global flush bit, poll it, re-
enable learning); this model returns the final value of `flags` and the
list of interrupt bits whose branch body executed, in order. -/
def PortMonitorTask_pass (flags0 : Nat) : Nat × List Nat :=
  let flags := flags0
  let s5 := if flags &&& 0x10 ≠ 0 then (0x10, [0x10]) else (flags, [])
  let flags := s5.1
  let s4 := if flags &&& 0x08 ≠ 0 then (0x08, [0x08]) else (flags, [])
  let flags := s4.1
  let s3 := if flags &&& 0x04 ≠ 0 then (0x04, [0x04]) else (flags, [])
  let flags := s3.1
  let s2 := if flags &&& 0x02 ≠ 0 then (0x02, [0x02]) else (flags, [])
  let flags := s2.1
  let s1 := if flags &&& 0x01 ≠ 0 then (0x01, [0x01]) else (flags, [])
  let flags := s1.1
  (flags, s5.2 ++ s4.2 ++ s3.2 ++ s2.2 ++ s1.2)

/-- The interrupt bits handled in one monitor pass. -/
def PortMonitorTask_handledBits (flags0 : Nat) : List Nat :=
  (PortMonitorTask_pass flags0).2

/-- C7 counterexample: with interrupt-status value 0x18 (expansion port
0x10 and port bit 0x08 both pending) a single pass handles only the
expansion port; the set bit 0x08 is not handled within that same pass,
contradicting the claim that every set bit is handled. -/
theorem C7_counterexample :
    0x18 &&& 0x08 ≠ 0 ∧ PortMonitorTask_handledBits 0x18 = [0x10] := by
  decide

set_option maxRecDepth 4096 in
/-- C7 (amended). In one monitor pass exactly the FIRST set bit in the
fixed order (expansion 0x10, then 0x08, 0x04, 0x02, 0x01) is handled —
the branch body overwrites the local flags variable with that bit, so
every later set bit is skipped for that pass (it stays pending in the
device, since only the handled bit is written back to clear it). -/
theorem C7_first_set_bit_amended :
    ∀ flags0 < 256, PortMonitorTask_handledBits flags0 =
      (([0x10, 0x08, 0x04, 0x02, 0x01].filter
        (fun b => flags0 &&& b != 0)).take 1) := by
  decide

/-- Witness for the amended C7 at `flags0 = 0x15`: bits 0x10, 0x04 and
0x01 pending, only 0x10 handled. -/
theorem C7_first_set_bit_amended_witness :
    PortMonitorTask_handledBits 0x15 =
      (([0x10, 0x08, 0x04, 0x02, 0x01].filter
        (fun b => 0x15 &&& b != 0)).take 1) :=
  C7_first_set_bit_amended 0x15 (by decide)

/-- The raw distance value assembled by `COM_RunCableDiagnostics`
(interpreter_task.c): `reg_data` is bit 0 of the first LinkMD register
ADDED to (not shifted below) the value of the second distance-to-fault
register. -/
def COM_RunCableDiagnostics_rawDistance (linkmd0 linkmd1 : Nat) : Nat :=
  (linkmd0 &&& 0x01) + linkmd1 % 256

/-- The fault-distance computation of `COM_RunCableDiagnostics`:
`fault_distance = (0.4 * (reg_data - 26));` where `fault_distance` and
`reg_data` are `uint32_t`. `reg_data - 26` wraps modulo 2^32; the C
`double` product `0.4 * m` is converted to `uint32_t` by truncation
toward zero, and for every m < 2^32 that truncation equals ⌊2m/5⌋: the
double nearest 0.4 is (2^54 + 1)/(5·2^53), so the exact product is
2m/5 + m/(5·2^53) with the second term below 2^-21, and rounding the
product to the nearest double can neither drop below an integer (every
integer below 2^32 is itself a double) nor reach the next integer (the
distance to it exceeds the term plus half an ulp), so the integer part
is unchanged. -/
def COM_RunCableDiagnostics_faultDistance (reg_data : Nat) : Nat :=
  2 * ((reg_data + 4294967296 - 26) % 4294967296) / 5

/-- The distance formula exactly as the claim states it:
`round(0.4 × (raw − 26))`, over exact rationals. -/
def linkMD_claim_distance (raw : Nat) : Int :=
  round ((2 * ((raw : ℚ) - 26)) / 5)

/-- C8 counterexample: at raw distance value 30 the code computes
`(uint32_t)(0.4 * 4) = 1`, while the formula of the claim, `round(0.4 × 4)`,
gives 2 — the code truncates instead of rounding. -/
theorem C8_counterexample :
    COM_RunCableDiagnostics_faultDistance 30 = 1 ∧
    linkMD_claim_distance 30 = 2 := by
  constructor
  · decide
  · unfold linkMD_claim_distance
    rw [round_eq]
    norm_num

/-- C8 (amended). The reported fault distance is the TRUNCATION (floor),
not the rounding, of 0.4 × (raw − 26): for every raw ≥ 26 (below the
uint32 range) the reported value d satisfies d ≤ 0.4 × (raw − 26) <
d + 1. (For raw < 26 the uint32 subtraction wraps and the code reports
a huge value, a case the formula of the claim does not describe at all.) -/
theorem C8_linkmd_truncation_amended :
    ∀ raw : Nat, 26 ≤ raw → raw < 4294967296 →
      ((COM_RunCableDiagnostics_faultDistance raw : ℚ) ≤
          2 * ((raw : ℚ) - 26) / 5 ∧
        2 * ((raw : ℚ) - 26) / 5 <
          (COM_RunCableDiagnostics_faultDistance raw : ℚ) + 1) := by
  intro raw h26 hlt
  have hm : (raw + 4294967296 - 26) % 4294967296 = raw - 26 := by
    have : raw + 4294967296 - 26 = 4294967296 + (raw - 26) := by omega
    rw [this, Nat.add_mod_left, Nat.mod_eq_of_lt (by omega)]
  have hd : COM_RunCableDiagnostics_faultDistance raw = 2 * (raw - 26) / 5 := by
    unfold COM_RunCableDiagnostics_faultDistance
    rw [hm]
  set k : Nat := 2 * (raw - 26) with hk
  have hcast : 2 * ((raw : ℚ) - 26) = (k : ℚ) := by
    rw [hk]
    push_cast [Nat.cast_sub h26]
    ring
  rw [hd, hcast]
  constructor
  · rw [le_div_iff₀ (by norm_num : (0 : ℚ) < 5)]
    have low : 5 * (k / 5) ≤ k := by omega
    have low2 : ((5 * (k / 5) : Nat) : ℚ) ≤ (k : ℚ) := by exact_mod_cast low
    push_cast at low2
    linarith
  · rw [div_lt_iff₀ (by norm_num : (0 : ℚ) < 5)]
    have high : k < 5 * (k / 5) + 5 := by omega
    have high2 : (k : ℚ) < ((5 * (k / 5) + 5 : Nat) : ℚ) := by
      exact_mod_cast high
    push_cast at high2
    linarith

/-- Witness for the amended C8 at raw = 30: the code reports 1 and
1 ≤ 0.4 × 4 < 2. -/
theorem C8_linkmd_truncation_amended_witness :
    ((COM_RunCableDiagnostics_faultDistance 30 : ℚ) ≤
        2 * ((30 : ℚ) - 26) / 5 ∧
      2 * ((30 : ℚ) - 26) / 5 <
        (COM_RunCableDiagnostics_faultDistance 30 : ℚ) + 1) := by
  have h := C8_linkmd_truncation_amended 30 (by norm_num) (by norm_num)
  exact_mod_cast h

/-- Logical AND (`&&`) of C on integer operands: true iff both operands
are non-zero. -/
def c_logand (a b : Nat) : Bool := decide (a ≠ 0) && decide (b ≠ 0)

/-- The VLAN-save guard and the flag update of
`COM_SaveSwitchConfiguration` (interpreter_task.c):
`if (global_control_3 && 0x80)` — LOGICAL and — take the VLAN-save
branch and finally set `flag_data |= 1 << FLAG_CONFIG_VLAN_VALID`
(bit 5); in the else branch clear it:
`flag_data &= ~(1 << FLAG_CONFIG_VLAN_VALID)` (on the `uint8_t`
`flag_data`, `~(1 << 5)` truncates to 0xDF = 223). -/
def COM_Save_vlanFlagData (flag_data global_control_3 : Nat) : Nat :=
  if c_logand global_control_3 0x80 then (flag_data ||| (1 <<< 5)) % 256
  else flag_data &&& 223

/-- C9. The VLAN-save branch guard is `global_control_3 && 0x80`
(logical AND): the branch is taken for every non-zero value of
global_control_3, and exactly when global_control_3 is zero the branch
is skipped and flag bit 5 (vlan-saved) is cleared instead of set. -/
theorem C9_vlan_save_logical_guard :
    (∀ g : Nat, c_logand g 0x80 = true ↔ g ≠ 0) ∧
    (∀ f g : Nat, f < 256 → g ≠ 0 →
      Nat.testBit (COM_Save_vlanFlagData f g) 5 = true) ∧
    (∀ f g : Nat, f < 256 → g = 0 →
      Nat.testBit (COM_Save_vlanFlagData f g) 5 = false) := by
  refine ⟨?_, ?_, ?_⟩
  · intro g
    simp [c_logand]
  · intro f g hf hg
    have hguard : c_logand g 0x80 = true := by simp [c_logand, hg]
    unfold COM_Save_vlanFlagData
    rw [hguard, if_pos rfl]
    have h32 : (1 <<< 5 : Nat) = 32 := by decide
    rw [h32]
    have hlt : f ||| 32 < 256 := by
      have := Nat.or_lt_two_pow (n := 8) hf (by decide : (32 : Nat) < 2 ^ 8)
      simpa using this
    rw [Nat.mod_eq_of_lt hlt]
    simp only [Nat.testBit_or, show Nat.testBit 32 5 = true from by decide,
      Bool.or_true]
  · intro f g hf hg
    have hguard : c_logand g 0x80 = false := by simp [c_logand, hg]
    unfold COM_Save_vlanFlagData
    rw [hguard]
    simp only [Bool.false_eq_true, if_false, Nat.testBit_and,
      show Nat.testBit 223 5 = false from by decide, Bool.and_false]

/-- Witness for C9 at concrete inputs: with flag byte 0 the guard taken
at global_control_3 = 1 (which has bit 7 CLEAR) sets bit 5; at
global_control_3 = 0 the bit is cleared from flag byte 0xFF. -/
theorem C9_vlan_save_logical_guard_witness :
    (c_logand 1 0x80 = true ↔ (1 : Nat) ≠ 0) ∧
    Nat.testBit (COM_Save_vlanFlagData 0 1) 5 = true ∧
    Nat.testBit (COM_Save_vlanFlagData 0xFF 0) 5 = false :=
  ⟨C9_vlan_save_logical_guard.1 1,
   C9_vlan_save_logical_guard.2.1 0 1 (by decide) (by decide),
   C9_vlan_save_logical_guard.2.2 0xFF 0 (by decide) (by decide)⟩

/-- The input guard of `COM_SetVLANEntry` (interpreter_task.c): only
`vlan_id > 4095` is rejected; `vlan_id = 0` passes. -/
def COM_SetVLANEntry_accepted (vlan_id : Nat) : Bool :=
  !(vlan_id > 4095 : Bool)

/-- The EEPROM mirror address written by `COM_SetVLANEntry`:
`0x200 + (vlan_id - 1)` in `uint32_t` arithmetic (the subtraction wraps
modulo 2^32 for vlan_id = 0). -/
def COM_SetVLANEntry_mirrorAddr (vlan_id : Nat) : Nat :=
  (0x200 + (vlan_id + 4294967296 - 1) % 4294967296) % 4294967296

/-- C10. `COM_SetVLANEntry` accepts vlan_id = 0 (only values above 4095
are rejected), which takes the `vlan_id % 4 = 0` switch path, and its
EEPROM mirror byte is written at `0x200 + (0 - 1) = 0x1FF` — one byte
below the VLAN region base (vlan_id = 1 maps to 0x200), inside the
0x100–0x1FF saved controller-register image. -/
theorem C10_vlan_zero_underflow :
    COM_SetVLANEntry_accepted 0 = true ∧
    0 % 4 = 0 ∧
    COM_SetVLANEntry_mirrorAddr 0 = 0x1FF ∧
    COM_SetVLANEntry_mirrorAddr 1 = 0x200 ∧
    0x100 ≤ COM_SetVLANEntry_mirrorAddr 0 ∧
    COM_SetVLANEntry_mirrorAddr 0 < 0x200 := by
  decide

end MISL
